import Mathlib

/-!
Shallow embedding of the video-forge-web core: the FFmpeg engine-loader
singleton, the conversion runner, and the queue coordinator, translated
from src/hooks/useFFmpeg.ts and the queue page component.
-/

namespace VideoForge

/-!  Engine loader (src/hooks/useFFmpeg.ts, module-level singletons and
the functions doLoad / ensureLoaded).  The module state consists of the
variables loadPromise, isReady and ffmpegInstance; promises are modelled
by numeric identifiers allocated in order.  Each synchronous segment of
the JS event loop is one step of the model. -/

structure LoaderState where
  loadPromise : Option Nat
  isReady : Bool
  hasInstance : Bool
  nextId : Nat
  started : List Nat
deriving DecidableEq

/-- Module initial state: loadPromise = null, ffmpegInstance = null,
isReady = false. -/
def initialLoaderState : LoaderState := ⟨none, false, false, 0, []⟩

/-- Outcome of the synchronous part of one ensureLoaded() call: return
true immediately (ready path), await an existing in-flight promise, or
start a brand-new doLoad() and await its promise. -/
inductive EnsureOutcome where
  | immediate (b : Bool)
  | awaits (p : Nat)
  | starts (p : Nat)
deriving DecidableEq

/-- ensureLoaded (useFFmpeg.ts lines 162-181): if isReady and an
instance exists, return true; else if loadPromise is set, await that
same promise; else store a fresh doLoad() promise in loadPromise and
await it. -/
def ensureLoaded (s : LoaderState) : EnsureOutcome × LoaderState :=
  if s.isReady && s.hasInstance then (.immediate true, s)
  else
    match s.loadPromise with
    | some p => (.awaits p, s)
    | none =>
        (.starts s.nextId,
         { s with loadPromise := some s.nextId, nextId := s.nextId + 1,
                  started := s.started ++ [s.nextId] })

/-- A batch of n back-to-back ensureLoaded() calls with no intervening
promise resolution (concurrent callers on the single JS thread). -/
def runCalls (s : LoaderState) : Nat → List EnsureOutcome × LoaderState
  | 0 => ([], s)
  | Nat.succ n =>
      let r := ensureLoaded s
      let rest := runCalls r.2 n
      (r.1 :: rest.1, rest.2)

/-- The boolean a caller eventually observes, given the boolean the
in-flight load resolves with. -/
def observedValue : EnsureOutcome → Bool → Bool
  | .immediate b, _ => b
  | .awaits _, r => r
  | .starts _, r => r

/-- Host environment and engine behaviour driving one doLoad() run;
none means the step succeeds, some e means it throws with message e. -/
structure LoadEnv where
  sharedArrayBuffer : Bool
  coreFetch : Option String
  wasmFetch : Option String
  engineLoad : Option String
deriving DecidableEq

/-- Observable effects of one doLoad() run. -/
structure LoadRun where
  ok : Bool
  errMsg : Option String
  triedFetch : Bool
  triedEngineLoad : Bool
  clearedPromise : Bool
deriving DecidableEq

def sabMessage : String :=
  "SharedArrayBuffer not available. Please use Chrome/Edge/Firefox with HTTPS."

/-- doLoad (useFFmpeg.ts lines 76-159): check SharedArrayBuffer first
and fail immediately when missing (no fetch, no engine load, and no
reset of the singletons); otherwise fetch the core and wasm assets,
then load the engine.  Any thrown error lands in the catch block, which
records diagnostics and resets loadPromise / ffmpegInstance / isReady. -/
def doLoad (env : LoadEnv) : LoadRun :=
  if env.sharedArrayBuffer = false then
    ⟨false, some sabMessage, false, false, false⟩
  else
    match env.coreFetch with
    | some e => ⟨false, some e, true, false, true⟩
    | none =>
        match env.wasmFetch with
        | some e => ⟨false, some e, true, false, true⟩
        | none =>
            match env.engineLoad with
            | some e => ⟨false, some e, true, true, true⟩
            | none => ⟨true, none, true, true, false⟩

/-- Effect of the doLoad() promise settling on the module state, and
the boolean delivered to every waiter.  On success isReady is set; on a
caught error the singletons are reset so retry is possible; on the
SharedArrayBuffer failure path nothing is reset (doLoad returns false
before the try block). -/
def resolveLoad (s : LoaderState) (run : LoadRun) : LoaderState × Bool :=
  if run.ok then ({ s with isReady := true, hasInstance := true }, true)
  else if run.clearedPromise then
    ({ s with loadPromise := none, isReady := false, hasInstance := false }, false)
  else (s, false)

/-!  Conversion runner (useFFmpeg.ts, convert / cancel / getExtension /
cleanup). -/

inductive Mode where
  | fast | reencode
deriving DecidableEq

/-- The final dot-run of the filename: the suffix starting at the last
dot, provided at least one character and no further dot follows it
(the regex match against a dot followed by one or more non-dot
characters at the end of the string). -/
def extSuffix : List Char → Option (List Char)
  | [] => none
  | c :: cs =>
      if c = '.' ∧ cs ≠ [] ∧ '.' ∉ cs then some (c :: cs) else extSuffix cs

/-- getExtension (useFFmpeg.ts lines 281-284): the lowercased final
dot-suffix of the filename, or ".mp4" when there is none. -/
def getExtension (filename : String) : String :=
  match extSuffix filename.data with
  | some r => String.mk (r.map Char.toLower)
  | none => ".mp4"

/-- Input workspace entry name (convert line 201). -/
def inputNameOf (fileName : String) : String := "input" ++ getExtension fileName

/-- Output workspace entry name (convert line 202). -/
def outputName : String := "output.mp4"

/-- The ffmpeg argument list built from the mode (convert lines
216-235). -/
def convertArgs (mode : Mode) (inName outName : String) : List String :=
  match mode with
  | .fast => ["-i", inName, "-c", "copy", "-movflags", "+faststart", outName]
  | .reencode =>
      ["-i", inName, "-c:v", "libx264", "-preset", "fast", "-crf", "23",
       "-c:a", "aac", "-b:a", "128k", "-movflags", "+faststart", outName]

/-- The clamped percentage delivered for one engine progress event
(convert line 209). -/
def clampProgress (p : ℚ) : ℚ := min (p * 100) 99

/-- The progress handler (convert lines 206-212) over the stream of
engine events fired while exec runs: each event carries the reported
fraction and the value of abortRef at that moment; events seen with the
abort flag set are dropped, the rest deliver the clamped percentage. -/
def deliveredDuringExec (events : List (ℚ × Bool)) : List ℚ :=
  events.filterMap fun e => if e.2 then none else some (clampProgress e.1)

/-- Adding a named entry to the engine workspace. -/
def insertName (ws : List String) (n : String) : List String :=
  if n ∈ ws then ws else ws ++ [n]

/-- cleanup (useFFmpeg.ts lines 286-294): delete each named file,
ignoring errors for entries that are absent. -/
def cleanup (ws : List String) (files : List String) : List String :=
  ws.filter fun n => !(decide (n ∈ files))

/-- Script of one conversion run: the progress events fired during
exec, whether writeFile / exec / readFile succeed, and whether cancel()
has set abortRef by the post-exec check. -/
structure ConvertScript where
  events : List (ℚ × Bool)
  writeOk : Bool
  execOk : Bool
  abortAfterExec : Bool
  readOk : Bool
deriving DecidableEq

/-- Observables of one conversion run: the progress values passed to
onProgress in order, whether a Blob was returned (versus null), the
final workspace contents, and whether readFile was invoked. -/
structure ConvertResult where
  delivered : List ℚ
  artifact : Bool
  ws : List String
  readOutput : Bool
deriving DecidableEq

/-- convert (useFFmpeg.ts lines 183-259).  Not ready: return null at
once.  writeFile throws: caught, null, no cleanup.  exec throws:
caught, null, no cleanup.  exec returns with abortRef set: cleanup,
null, output never read.  readFile throws: caught, null, no cleanup.
Otherwise: read output, cleanup, deliver 100, return the Blob. -/
def convert (ready : Bool) (ws0 : List String) (fileName : String) (_mode : Mode)
    (s : ConvertScript) : ConvertResult :=
  if ready = false then ⟨[], false, ws0, false⟩
  else if s.writeOk = false then ⟨[], false, ws0, false⟩
  else
    let inName := inputNameOf fileName
    let ws1 := insertName ws0 inName
    let d := deliveredDuringExec s.events
    if s.execOk = false then ⟨d, false, ws1, false⟩
    else
      let ws2 := insertName ws1 outputName
      if s.abortAfterExec then ⟨d, false, cleanup ws2 [inName, outputName], false⟩
      else if s.readOk = false then ⟨d, false, ws2, true⟩
      else ⟨d ++ [100], true, cleanup ws2 [inName, outputName], true⟩

/-!  Queue coordinator (the page component: startProcessing,
clearCompleted, removeItem and the per-item render guard). -/

inductive FileStatus where
  | queued | converting | completed | error
deriving DecidableEq

structure QueueItem where
  id : String
  fileName : String
  status : FileStatus
  progress : ℚ
  errMsg : Option String
deriving DecidableEq

structure CoordState where
  queue : List QueueItem
  processing : Bool
deriving DecidableEq

/-- startProcessing (lines 152-165): if processingRef is already set,
return at once (no snapshot, nothing processed); otherwise set the flag
and snapshot the currently queued items, which the pass then processes
in order. -/
def startProcessing (s : CoordState) : Option (List QueueItem) × CoordState :=
  if s.processing then (none, s)
  else (some (s.queue.filter fun q => decide (q.status = FileStatus.queued)),
        { s with processing := true })

/-- clearCompleted (lines 217-221): count the completed items, keep
every item whose status is not completed, and surface the count. -/
def clearCompleted (queue : List QueueItem) : List QueueItem × Nat :=
  (queue.filter fun q => !(decide (q.status = FileStatus.completed)),
   (queue.filter fun q => decide (q.status = FileStatus.completed)).length)

/-- removeItem (lines 213-215): drop the item with the given id,
with no status check of any kind. -/
def removeItem (queue : List QueueItem) (id : String) : List QueueItem :=
  queue.filter fun q => !(decide (q.id = id))

/-- The render guard (lines 441-450): the remove button is shown only
for items whose status is not converting. -/
def removeButtonShown (item : QueueItem) : Bool :=
  !(decide (item.status = FileStatus.converting))

/-!  Loader lemmas. -/

theorem ensureLoaded_inflight (s : LoaderState) (p : Nat)
    (h : (s.isReady && s.hasInstance) = false) (hp : s.loadPromise = some p) :
    ensureLoaded s = (.awaits p, s) := by
  simp [ensureLoaded, h, hp]

theorem runCalls_inflight (s : LoaderState) (p : Nat) (n : Nat)
    (h : (s.isReady && s.hasInstance) = false) (hp : s.loadPromise = some p) :
    runCalls s n = (List.replicate n (EnsureOutcome.awaits p), s) := by
  induction n with
  | zero => simp [runCalls]
  | succ n ih =>
      simp [runCalls, ensureLoaded_inflight s p h hp, ih, List.replicate]

/-- The single-flight property of a batch of n concurrent ensureLoaded
calls from state s: at most one doLoad is started; while a load is in
flight every call awaits that same promise and changes nothing; a new
load starts only from the no-promise state; and all callers of the
batch observe the one boolean the shared load resolves with. -/
def SingleFlight (s : LoaderState) (n : Nat) : Prop :=
  ((runCalls s n).2.started.length ≤ s.started.length + 1) ∧
  (∀ p, s.loadPromise = some p →
      (runCalls s n).1 = List.replicate n (EnsureOutcome.awaits p) ∧
      (runCalls s n).2 = s) ∧
  (∀ p, EnsureOutcome.starts p ∈ (runCalls s n).1 →
      s.loadPromise = none ∧ p = s.nextId) ∧
  (∃ p, (∀ o ∈ (runCalls s n).1,
            o = EnsureOutcome.awaits p ∨ o = EnsureOutcome.starts p) ∧
        ∀ b : Bool, ∀ o ∈ (runCalls s n).1, observedValue o b = b)

/-- Claim C1: for every sequence of concurrent ensureLoaded() calls,
doLoad is started at most once per Idle/Failed-to-Acquiring
transition: while a load promise is in flight every further call
awaits that same promise rather than starting a second load, and all
concurrent callers observe the same boolean outcome. -/
theorem ensureLoaded_single_flight (s : LoaderState) (n : Nat)
    (h : (s.isReady && s.hasInstance) = false) : SingleFlight s n := by
  cases hp : s.loadPromise with
  | some p =>
      have hrun := runCalls_inflight s p n h hp
      refine ⟨?_, ?_, ?_, ?_⟩
      · rw [hrun]
        exact Nat.le_succ _
      · intro q hq
        rw [hp] at hq
        cases hq
        rw [hrun]
        exact ⟨rfl, rfl⟩
      · intro q hq
        rw [hrun] at hq
        simp only [List.mem_replicate] at hq
        exact absurd hq.2 (by simp)
      · refine ⟨p, ?_, ?_⟩
        · intro o ho
          rw [hrun] at ho
          simp only [List.mem_replicate] at ho
          exact Or.inl ho.2
        · intro b o ho
          rw [hrun] at ho
          simp only [List.mem_replicate] at ho
          rw [ho.2]
          rfl
  | none =>
      cases n with
      | zero =>
          refine ⟨by simp [runCalls], ?_, ?_, ⟨0, ?_, ?_⟩⟩ <;>
            simp [runCalls, hp]
      | succ m =>
          have hstep : ensureLoaded s =
              (.starts s.nextId,
               { s with loadPromise := some s.nextId, nextId := s.nextId + 1,
                        started := s.started ++ [s.nextId] }) := by
            simp [ensureLoaded, h, hp]
          set s2 : LoaderState :=
            { s with loadPromise := some s.nextId, nextId := s.nextId + 1,
                     started := s.started ++ [s.nextId] } with hs2
          have h2 : (s2.isReady && s2.hasInstance) = false := h
          have hrun2 := runCalls_inflight s2 s.nextId m h2 rfl
          have hrun : runCalls s (m + 1) =
              (EnsureOutcome.starts s.nextId ::
                List.replicate m (EnsureOutcome.awaits s.nextId), s2) := by
            simp [runCalls, hstep, hrun2]
          refine ⟨?_, ?_, ?_, ⟨s.nextId, ?_, ?_⟩⟩
          · rw [hrun]
            simp [hs2]
          · intro q hq
            rw [hp] at hq
            cases hq
          · intro q hq
            rw [hrun] at hq
            simp only [List.mem_cons, List.mem_replicate] at hq
            rcases hq with hq | hq
            · cases hq
              exact ⟨hp, rfl⟩
            · exact absurd hq.2 (by simp)
          · intro o ho
            rw [hrun] at ho
            simp only [List.mem_cons, List.mem_replicate] at ho
            rcases ho with ho | ho
            · exact Or.inr ho
            · exact Or.inl ho.2
          · intro b o ho
            rw [hrun] at ho
            simp only [List.mem_cons, List.mem_replicate] at ho
            rcases ho with ho | ho
            · rw [ho]
              rfl
            · rw [ho.2]
              rfl

/-- Witness for C1 at a concrete state with a load in flight. -/
theorem ensureLoaded_single_flight_witness :
    (((⟨some 5, false, false, 6, [5]⟩ : LoaderState).isReady &&
      (⟨some 5, false, false, 6, [5]⟩ : LoaderState).hasInstance) = false) ∧
    SingleFlight ⟨some 5, false, false, 6, [5]⟩ 3 :=
  ⟨by decide, ensureLoaded_single_flight ⟨some 5, false, false, 6, [5]⟩ 3 (by decide)⟩

/-- Claim C6: when SharedArrayBuffer is absent, doLoad fails at once
with a diagnostics message naming the missing capability, without
attempting the asset fetch or the engine initialization. -/
theorem capability_missing_spec (env : LoadEnv)
    (h : env.sharedArrayBuffer = false) :
    doLoad env = ⟨false, some sabMessage, false, false, false⟩ ∧
    sabMessage.data.take 17 = "SharedArrayBuffer".data := by
  constructor
  · simp [doLoad, h]
  · decide

/-- Witness for C6 at a concrete environment. -/
theorem capability_missing_spec_witness :
    (LoadEnv.sharedArrayBuffer ⟨false, none, none, none⟩ = false) ∧
    (doLoad ⟨false, none, none, none⟩ =
        ⟨false, some sabMessage, false, false, false⟩ ∧
     sabMessage.data.take 17 = "SharedArrayBuffer".data) :=
  ⟨rfl, capability_missing_spec ⟨false, none, none, none⟩ rfl⟩

/-- A capability-missing environment: SharedArrayBuffer absent. -/
def capEnv : LoadEnv := ⟨false, none, none, none⟩

/-- Counterexample to claim C5: start a load from the initial state,
let it fail because SharedArrayBuffer is missing, and call
ensureLoaded again: the call awaits the stale settled promise (id 0)
instead of starting a brand-new acquisition attempt, and the list of
started loads stays [0].  The Failed state is sticky for this cause. -/
theorem failed_retry_counterexample :
    (ensureLoaded initialLoaderState).1 = EnsureOutcome.starts 0 ∧
    (resolveLoad (ensureLoaded initialLoaderState).2 (doLoad capEnv)).2 = false ∧
    (ensureLoaded
        (resolveLoad (ensureLoaded initialLoaderState).2 (doLoad capEnv)).1).1 =
      EnsureOutcome.awaits 0 ∧
    (ensureLoaded
        (resolveLoad (ensureLoaded initialLoaderState).2 (doLoad capEnv)).1).2.started
      = [0] := by
  decide

/-- Amended claim C5: after an acquisition failure thrown inside the
try block (asset fetch or engine initialization), the catch handler
clears loadPromise, so the next ensureLoaded() starts a brand-new
attempt; after the missing-capability failure loadPromise is not
cleared, so the next call awaits the stale promise: that failure is
sticky. -/
theorem failed_retry_paths (s : LoaderState) (env : LoadEnv) (p : Nat)
    (hp : s.loadPromise = some p) (hnr : s.isReady = false) :
    ((doLoad env).ok = false → (doLoad env).clearedPromise = true →
        (ensureLoaded (resolveLoad s (doLoad env)).1).1 =
          EnsureOutcome.starts s.nextId) ∧
    (env.sharedArrayBuffer = false →
        (ensureLoaded (resolveLoad s (doLoad env)).1).1 =
          EnsureOutcome.awaits p) := by
  constructor
  · intro hok hcl
    simp [resolveLoad, hok, hcl, ensureLoaded]
  · intro hsab
    have hrun : doLoad env = ⟨false, some sabMessage, false, false, false⟩ := by
      simp [doLoad, hsab]
    rw [hrun]
    simp [resolveLoad, ensureLoaded, hnr, hp]

/-- Witness for C5 amended: a fetch failure is retryable, a capability
failure is not. -/
theorem failed_retry_paths_witness :
    ((⟨some 0, false, false, 1, [0]⟩ : LoaderState).loadPromise = some 0 ∧
     (⟨some 0, false, false, 1, [0]⟩ : LoaderState).isReady = false) ∧
    (((doLoad ⟨true, some "fetch failed", none, none⟩).ok = false →
        (doLoad ⟨true, some "fetch failed", none, none⟩).clearedPromise = true →
        (ensureLoaded (resolveLoad ⟨some 0, false, false, 1, [0]⟩
            (doLoad ⟨true, some "fetch failed", none, none⟩)).1).1 =
          EnsureOutcome.starts 1) ∧
     ((⟨true, some "fetch failed", none, none⟩ : LoadEnv).sharedArrayBuffer = false →
        (ensureLoaded (resolveLoad ⟨some 0, false, false, 1, [0]⟩
            (doLoad ⟨true, some "fetch failed", none, none⟩)).1).1 =
          EnsureOutcome.awaits 0)) :=
  ⟨⟨rfl, rfl⟩,
   failed_retry_paths ⟨some 0, false, false, 1, [0]⟩
     ⟨true, some "fetch failed", none, none⟩ 0 rfl rfl⟩

/-!  Conversion runner lemmas. -/

theorem clampProgress_le (p : ℚ) : clampProgress p ≤ 99 := min_le_right _ _

theorem clampProgress_mono {a b : ℚ} (h : a ≤ b) :
    clampProgress a ≤ clampProgress b :=
  min_le_min (mul_le_mul_of_nonneg_right h (by norm_num)) le_rfl

theorem deliveredDuringExec_sublist (events : List (ℚ × Bool)) :
    List.Sublist (deliveredDuringExec events)
      (events.map fun e => clampProgress e.1) := by
  induction events with
  | nil => simp [deliveredDuringExec]
  | cons e es ih =>
      cases he : e.2
      · have h2 : deliveredDuringExec (e :: es) =
            clampProgress e.1 :: deliveredDuringExec es := by
          simp [deliveredDuringExec, List.filterMap_cons, he]
        rw [h2, List.map_cons]
        exact ih.cons₂ _
      · have h2 : deliveredDuringExec (e :: es) = deliveredDuringExec es := by
          simp [deliveredDuringExec, List.filterMap_cons, he]
        rw [h2, List.map_cons]
        exact ih.cons _

theorem mem_deliveredDuringExec_le {events : List (ℚ × Bool)} {x : ℚ}
    (hx : x ∈ deliveredDuringExec events) : x ≤ 99 := by
  simp only [deliveredDuringExec, List.mem_filterMap] at hx
  obtain ⟨e, _, he⟩ := hx
  cases h2 : e.2
  · rw [h2] at he
    simp only [Bool.false_eq_true, if_false, Option.some.injEq] at he
    rw [← he]
    exact clampProgress_le e.1
  · rw [h2] at he
    simp at he

theorem deliveredDuringExec_pairwise {events : List (ℚ × Bool)}
    (h : List.Pairwise (fun a b => a.1 ≤ b.1) events) :
    List.Pairwise (· ≤ ·) (deliveredDuringExec events) := by
  have hmap : List.Pairwise (· ≤ ·) (events.map fun e => clampProgress e.1) :=
    List.Pairwise.map (fun e : ℚ × Bool => clampProgress e.1)
      (fun _ _ hab => clampProgress_mono hab) h
  exact hmap.sublist (deliveredDuringExec_sublist events)

theorem deliveredDuringExec_all_false {events : List (ℚ × Bool)}
    (h : ∀ e ∈ events, e.2 = false) :
    deliveredDuringExec events = events.map fun e => clampProgress e.1 := by
  induction events with
  | nil => rfl
  | cons e es ih =>
      have he := h e (List.mem_cons_self e es)
      have hrest : ∀ x ∈ es, x.2 = false :=
        fun x hx => h x (List.mem_cons_of_mem e hx)
      have h2 : deliveredDuringExec (e :: es) =
          clampProgress e.1 :: deliveredDuringExec es := by
        simp [deliveredDuringExec, List.filterMap_cons, he]
      rw [h2, ih hrest, List.map_cons]

theorem deliveredDuringExec_all_true {events : List (ℚ × Bool)}
    (h : ∀ e ∈ events, e.2 = true) : deliveredDuringExec events = [] := by
  induction events with
  | nil => rfl
  | cons e es ih =>
      have he := h e (List.mem_cons_self e es)
      have hrest : ∀ x ∈ es, x.2 = true :=
        fun x hx => h x (List.mem_cons_of_mem e hx)
      have h2 : deliveredDuringExec (e :: es) = deliveredDuringExec es := by
        simp [deliveredDuringExec, List.filterMap_cons, he]
      rw [h2, ih hrest]

theorem deliveredDuringExec_append (l1 l2 : List (ℚ × Bool)) :
    deliveredDuringExec (l1 ++ l2) =
      deliveredDuringExec l1 ++ deliveredDuringExec l2 :=
  List.filterMap_append l1 l2 _

theorem mem_insertName_self (ws : List String) (n : String) :
    n ∈ insertName ws n := by
  unfold insertName
  by_cases h : n ∈ ws
  · rwa [if_pos h]
  · rw [if_neg h]
    exact List.mem_append_right _ (List.mem_singleton.mpr rfl)

theorem mem_insertName_of_mem {ws : List String} {a : String} (n : String)
    (h : a ∈ ws) : a ∈ insertName ws n := by
  unfold insertName
  split
  · exact h
  · exact List.mem_append_left _ h

theorem not_mem_cleanup (ws files : List String) {n : String} (hn : n ∈ files) :
    n ∉ cleanup ws files := by
  intro h
  rw [cleanup, List.mem_filter] at h
  simp only [Bool.not_eq_true', decide_eq_false_iff_not] at h
  exact h.2 hn

/-!  Branch evaluations of convert, one per exit path of the source. -/

theorem convert_not_ready (ws0 : List String) (f : String) (m : Mode)
    (s : ConvertScript) : convert false ws0 f m s = ⟨[], false, ws0, false⟩ := rfl

theorem convert_write_fail (ws0 : List String) (f : String) (m : Mode)
    (s : ConvertScript) (hw : s.writeOk = false) :
    convert true ws0 f m s = ⟨[], false, ws0, false⟩ := by
  simp [convert, hw]

theorem convert_exec_fail (ws0 : List String) (f : String) (m : Mode)
    (s : ConvertScript) (hw : s.writeOk = true) (hx : s.execOk = false) :
    convert true ws0 f m s =
      ⟨deliveredDuringExec s.events, false,
       insertName ws0 (inputNameOf f), false⟩ := by
  simp [convert, hw, hx]

theorem convert_cancelled (ws0 : List String) (f : String) (m : Mode)
    (s : ConvertScript) (hw : s.writeOk = true) (hx : s.execOk = true)
    (ha : s.abortAfterExec = true) :
    convert true ws0 f m s =
      ⟨deliveredDuringExec s.events, false,
       cleanup (insertName (insertName ws0 (inputNameOf f)) outputName)
         [inputNameOf f, outputName], false⟩ := by
  simp [convert, hw, hx, ha]

theorem convert_read_fail (ws0 : List String) (f : String) (m : Mode)
    (s : ConvertScript) (hw : s.writeOk = true) (hx : s.execOk = true)
    (ha : s.abortAfterExec = false) (hrd : s.readOk = false) :
    convert true ws0 f m s =
      ⟨deliveredDuringExec s.events, false,
       insertName (insertName ws0 (inputNameOf f)) outputName, true⟩ := by
  simp [convert, hw, hx, ha, hrd]

theorem convert_success (ws0 : List String) (f : String) (m : Mode)
    (s : ConvertScript) (hw : s.writeOk = true) (hx : s.execOk = true)
    (ha : s.abortAfterExec = false) (hrd : s.readOk = true) :
    convert true ws0 f m s =
      ⟨deliveredDuringExec s.events ++ [100], true,
       cleanup (insertName (insertName ws0 (inputNameOf f)) outputName)
         [inputNameOf f, outputName], true⟩ := by
  simp [convert, hw, hx, ha, hrd]

/-- The progress contract of one conversion run: delivered values are
non-decreasing; on success the last value is exactly 100, delivered
after the output was read, and everything before it is at most 99; on
any other outcome every value is at most 99; 100 is delivered only on
success; and with no cancellation each engine event is delivered as
its clamped value followed by the final 100. -/
def ProgressSpec (ready : Bool) (ws0 : List String) (f : String) (m : Mode)
    (s : ConvertScript) : Prop :=
  List.Pairwise (· ≤ ·) (convert ready ws0 f m s).delivered ∧
  ((convert ready ws0 f m s).artifact = true →
      (convert ready ws0 f m s).delivered.getLast? = some 100 ∧
      (convert ready ws0 f m s).readOutput = true ∧
      ∀ x ∈ (convert ready ws0 f m s).delivered.dropLast, x ≤ 99) ∧
  ((convert ready ws0 f m s).artifact = false →
      ∀ x ∈ (convert ready ws0 f m s).delivered, x ≤ 99) ∧
  ((100 : ℚ) ∈ (convert ready ws0 f m s).delivered →
      (convert ready ws0 f m s).artifact = true) ∧
  ((∀ e ∈ s.events, e.2 = false) → (convert ready ws0 f m s).artifact = true →
      (convert ready ws0 f m s).delivered =
        (s.events.map fun e => clampProgress e.1) ++ [100])

/-- Claim C2: for every conversion job whose engine reports
non-decreasing progress fractions, the values delivered to onProgress
are non-decreasing, each event is reported clamped to at most 99, and
exactly 100 is delivered on, and only on, confirmed success after the
output has been read. -/
theorem convert_progress_spec (ready : Bool) (ws0 : List String) (f : String)
    (m : Mode) (s : ConvertScript)
    (hmono : List.Pairwise (fun a b => a.1 ≤ b.1) s.events) :
    ProgressSpec ready ws0 f m s := by
  have hdp := deliveredDuringExec_pairwise hmono
  have hdle : ∀ x ∈ deliveredDuringExec s.events, x ≤ 99 :=
    fun x hx => mem_deliveredDuringExec_le hx
  have h100 : (100 : ℚ) ∉ deliveredDuringExec s.events := by
    intro h
    have := hdle 100 h
    norm_num at this
  unfold ProgressSpec
  cases ready with
  | false =>
      rw [convert_not_ready]
      exact ⟨List.Pairwise.nil, by simp, by simp, by simp, by simp⟩
  | true =>
      cases hw : s.writeOk with
      | false =>
          rw [convert_write_fail ws0 f m s hw]
          exact ⟨List.Pairwise.nil, by simp, by simp, by simp, by simp⟩
      | true =>
          cases hx : s.execOk with
          | false =>
              rw [convert_exec_fail ws0 f m s hw hx]
              exact ⟨hdp, by simp, fun _ => hdle, fun h => absurd h h100, by simp⟩
          | true =>
              cases ha : s.abortAfterExec with
              | true =>
                  rw [convert_cancelled ws0 f m s hw hx ha]
                  exact ⟨hdp, by simp, fun _ => hdle, fun h => absurd h h100,
                         by simp⟩
              | false =>
                  cases hrd : s.readOk with
                  | false =>
                      rw [convert_read_fail ws0 f m s hw hx ha hrd]
                      exact ⟨hdp, by simp, fun _ => hdle,
                             fun h => absurd h h100, by simp⟩
                  | true =>
                      rw [convert_success ws0 f m s hw hx ha hrd]
                      refine ⟨?_, ?_, ?_, ?_, ?_⟩
                      · rw [List.pairwise_append]
                        refine ⟨hdp, List.pairwise_singleton _ _, ?_⟩
                        intro a ha2 b hb
                        rw [List.mem_singleton] at hb
                        subst hb
                        exact le_trans (hdle a ha2) (by norm_num)
                      · intro _
                        refine ⟨List.getLast?_concat _, rfl, ?_⟩
                        rw [List.dropLast_concat]
                        exact hdle
                      · intro h
                        cases h
                      · intro _
                        rfl
                      · intro hflags _
                        rw [deliveredDuringExec_all_false hflags]

/-- Witness for C2 on a concrete successful run with two progress
events. -/
theorem convert_progress_spec_witness :
    List.Pairwise (fun (a b : ℚ × Bool) => a.1 ≤ b.1)
      [((1 : ℚ)/4, false), ((1 : ℚ)/2, false)] ∧
    ProgressSpec true [] "clip.mov" Mode.fast
      ⟨[((1 : ℚ)/4, false), ((1 : ℚ)/2, false)], true, true, false, true⟩ :=
  ⟨by norm_num, convert_progress_spec true [] "clip.mov" Mode.fast
      ⟨[((1 : ℚ)/4, false), ((1 : ℚ)/2, false)], true, true, false, true⟩
      (by norm_num)⟩

/-- The cancellation contract of one run in which the engine command
returned normally with the abort flag set: no artifact, the output is
never read, both workspace entries are deleted, no value of 100 is
ever delivered, and events fired after cancellation deliver nothing. -/
def CancelSpec (ws0 : List String) (f : String) (m : Mode)
    (s : ConvertScript) : Prop :=
  (convert true ws0 f m s).artifact = false ∧
  (convert true ws0 f m s).readOutput = false ∧
  inputNameOf f ∉ (convert true ws0 f m s).ws ∧
  outputName ∉ (convert true ws0 f m s).ws ∧
  (100 : ℚ) ∉ (convert true ws0 f m s).delivered ∧
  (∀ pre post, s.events = pre ++ post → (∀ e ∈ post, e.2 = true) →
      (convert true ws0 f m s).delivered = deliveredDuringExec pre)

/-- Claim C3: if cancel() is invoked before the conversion reaches a
terminal outcome, then once the engine command returns the produced
output is never read, no Blob is returned, no progress callback is
delivered after cancellation (in particular never 100), and workspace
cleanup is still performed. -/
theorem convert_cancel_spec (ws0 : List String) (f : String) (m : Mode)
    (s : ConvertScript) (hw : s.writeOk = true) (hx : s.execOk = true)
    (ha : s.abortAfterExec = true) : CancelSpec ws0 f m s := by
  unfold CancelSpec
  rw [convert_cancelled ws0 f m s hw hx ha]
  refine ⟨rfl, rfl, ?_, ?_, ?_, ?_⟩
  · exact not_mem_cleanup _ _ (by simp)
  · exact not_mem_cleanup _ _ (by simp)
  · intro h
    exact absurd (mem_deliveredDuringExec_le h) (by norm_num)
  · intro pre post hsplit hpost
    show deliveredDuringExec s.events = deliveredDuringExec pre
    rw [hsplit, deliveredDuringExec_append, deliveredDuringExec_all_true hpost,
        List.append_nil]

/-- Witness for C3 on a concrete cancelled run: one event before and
one after the cancellation. -/
theorem convert_cancel_spec_witness :
    ((⟨[((1 : ℚ)/2, false), ((3 : ℚ)/4, true)], true, true, true, true⟩ :
        ConvertScript).writeOk = true ∧
     (⟨[((1 : ℚ)/2, false), ((3 : ℚ)/4, true)], true, true, true, true⟩ :
        ConvertScript).execOk = true ∧
     (⟨[((1 : ℚ)/2, false), ((3 : ℚ)/4, true)], true, true, true, true⟩ :
        ConvertScript).abortAfterExec = true) ∧
    CancelSpec [] "clip.ts" Mode.reencode
      ⟨[((1 : ℚ)/2, false), ((3 : ℚ)/4, true)], true, true, true, true⟩ :=
  ⟨⟨rfl, rfl, rfl⟩,
   convert_cancel_spec [] "clip.ts" Mode.reencode
     ⟨[((1 : ℚ)/2, false), ((3 : ℚ)/4, true)], true, true, true, true⟩
     rfl rfl rfl⟩

/-- A script whose exec step throws. -/
def execFailScript : ConvertScript := ⟨[], true, false, false, true⟩

/-- Counterexample to claim C4: when the engine command throws, the
catch handler returns null without running cleanup, so the input
workspace entry created for the job is still present when the run
returns. -/
theorem convert_cleanup_counterexample :
    inputNameOf "clip.ts" ∈
      (convert true [] "clip.ts" Mode.fast execFailScript).ws ∧
    (convert true [] "clip.ts" Mode.fast execFailScript).ws = ["input.ts"] := by
  constructor
  · rw [convert_exec_fail [] "clip.ts" Mode.fast execFailScript rfl rfl]
    exact mem_insertName_self [] (inputNameOf "clip.ts")
  · rw [convert_exec_fail [] "clip.ts" Mode.fast execFailScript rfl rfl]
    rfl

/-- The cleanup behaviour of every exit path: on the cancellation and
success paths both workspace entries are deleted before the run
returns; on the engine-command failure path the input entry survives;
on the output-read failure path both entries survive. -/
def CleanupSpec (ws0 : List String) (f : String) (m : Mode)
    (s : ConvertScript) : Prop :=
  (s.writeOk = true → s.execOk = true → s.abortAfterExec = true →
      inputNameOf f ∉ (convert true ws0 f m s).ws ∧
      outputName ∉ (convert true ws0 f m s).ws) ∧
  (s.writeOk = true → s.execOk = true → s.abortAfterExec = false →
      s.readOk = true →
      inputNameOf f ∉ (convert true ws0 f m s).ws ∧
      outputName ∉ (convert true ws0 f m s).ws) ∧
  (s.writeOk = true → s.execOk = false →
      inputNameOf f ∈ (convert true ws0 f m s).ws ∧
      (convert true ws0 f m s).artifact = false) ∧
  (s.writeOk = true → s.execOk = true → s.abortAfterExec = false →
      s.readOk = false →
      inputNameOf f ∈ (convert true ws0 f m s).ws ∧
      outputName ∈ (convert true ws0 f m s).ws ∧
      (convert true ws0 f m s).artifact = false)

/-- Amended claim C4: the workspace entries created for a job are
deleted before the run returns on the success and cancellation exit
paths, but when the run fails with an error (engine command or output
read throwing), the catch handler returns without cleanup and the
entries created so far remain. -/
theorem convert_cleanup_paths (ws0 : List String) (f : String) (m : Mode)
    (s : ConvertScript) : CleanupSpec ws0 f m s := by
  unfold CleanupSpec
  refine ⟨?_, ?_, ?_, ?_⟩
  · intro hw hx ha
    rw [convert_cancelled ws0 f m s hw hx ha]
    exact ⟨not_mem_cleanup _ _ (by simp), not_mem_cleanup _ _ (by simp)⟩
  · intro hw hx ha hrd
    rw [convert_success ws0 f m s hw hx ha hrd]
    exact ⟨not_mem_cleanup _ _ (by simp), not_mem_cleanup _ _ (by simp)⟩
  · intro hw hx
    rw [convert_exec_fail ws0 f m s hw hx]
    exact ⟨mem_insertName_self ws0 (inputNameOf f), rfl⟩
  · intro hw hx ha hrd
    rw [convert_read_fail ws0 f m s hw hx ha hrd]
    exact ⟨mem_insertName_of_mem _ (mem_insertName_self ws0 (inputNameOf f)),
           mem_insertName_self _ outputName, rfl⟩

/-- Witness for C4 amended at a concrete cancelled run. -/
theorem convert_cleanup_paths_witness :
    CleanupSpec ["leftover"] "movie.mkv" Mode.fast
      ⟨[], true, true, true, true⟩ :=
  convert_cleanup_paths ["leftover"] "movie.mkv" Mode.fast
    ⟨[], true, true, true, true⟩

/-!  Queue coordinator lemmas and claims. -/

/-- The reentrancy and snapshot contract of startProcessing: while a
pass is underway the call is a no-op; otherwise it snapshots exactly
the currently queued jobs, in queue order, each at most as often as it
occurs in the queue, and no job outside the current queue can appear
in the snapshot. -/
def StartSpec (s : CoordState) : Prop :=
  (s.processing = true → startProcessing s = (none, s)) ∧
  (s.processing = false →
      startProcessing s =
        (some (s.queue.filter fun q => decide (q.status = FileStatus.queued)),
         { s with processing := true }) ∧
      ∀ l, (startProcessing s).1 = some l →
        List.Sublist l s.queue ∧
        (∀ j ∈ l, j.status = FileStatus.queued) ∧
        (∀ j ∈ s.queue, j.status = FileStatus.queued → j ∈ l) ∧
        (∀ j, l.count j ≤ s.queue.count j) ∧
        (∀ j, j ∉ s.queue → j ∉ l))

/-- Claim C7: invoking startProcessing while a pass is already
underway is a no-op, and a pass snapshots exactly the set of jobs
queued at invocation time, in enqueue order, excluding jobs added
after the pass started. -/
theorem startProcessing_spec (s : CoordState) : StartSpec s := by
  unfold StartSpec
  constructor
  · intro h
    simp [startProcessing, h]
  · intro h
    have hstep : startProcessing s =
        (some (s.queue.filter fun q => decide (q.status = FileStatus.queued)),
         { s with processing := true }) := by
      simp [startProcessing, h]
    refine ⟨hstep, ?_⟩
    intro l hl
    rw [hstep] at hl
    simp only [Option.some.injEq] at hl
    subst hl
    refine ⟨List.filter_sublist _, ?_, ?_, ?_, ?_⟩
    · intro j hj
      rw [List.mem_filter] at hj
      exact of_decide_eq_true hj.2
    · intro j hj hq
      rw [List.mem_filter]
      exact ⟨hj, decide_eq_true hq⟩
    · intro j
      exact (List.filter_sublist _).count_le j
    · intro j hj hmem
      exact hj ((List.filter_sublist _).mem hmem)

/-- Witness for C7 at a concrete coordinator state with one queued,
one converting and one completed job, plus the busy no-op case. -/
theorem startProcessing_spec_witness :
    StartSpec ⟨[⟨"a", "a.ts", FileStatus.queued, 0, none⟩,
                ⟨"b", "b.ts", FileStatus.converting, 40, none⟩,
                ⟨"c", "c.ts", FileStatus.completed, 100, none⟩], false⟩ ∧
    StartSpec ⟨[⟨"a", "a.ts", FileStatus.queued, 0, none⟩], true⟩ :=
  ⟨startProcessing_spec _, startProcessing_spec _⟩

/-- The clearCompleted contract: the surviving queue is exactly the
jobs that were not completed, kept in order as the very same records,
and the surfaced count plus the survivors account for the whole
queue, the count being the number of completed jobs at call time. -/
def ClearSpec (queue : List QueueItem) : Prop :=
  (∀ j, j ∈ (clearCompleted queue).1 ↔
      (j ∈ queue ∧ j.status ≠ FileStatus.completed)) ∧
  List.Sublist (clearCompleted queue).1 queue ∧
  (∀ j, j.status ≠ FileStatus.completed →
      (clearCompleted queue).1.count j = queue.count j) ∧
  (clearCompleted queue).2 + (clearCompleted queue).1.length = queue.length ∧
  (clearCompleted queue).2 =
    (queue.filter fun q => decide (q.status = FileStatus.completed)).length

/-- Claim C8: clearCompleted removes exactly the jobs completed at
call time, leaves every other job untouched with the same identity,
status and progress, and surfaces the count of jobs removed. -/
theorem clearCompleted_spec (queue : List QueueItem) : ClearSpec queue := by
  unfold ClearSpec
  refine ⟨?_, ?_, ?_, ?_, rfl⟩
  · intro j
    rw [clearCompleted, List.mem_filter]
    simp only [Bool.not_eq_true', decide_eq_false_iff_not]
  · exact List.filter_sublist _
  · intro j hj
    exact List.count_filter (by simpa using hj)
  · exact (List.length_eq_length_filter_add _).symm

/-- Witness for C8 at a concrete queue with two completed jobs
around a queued and an errored one. -/
theorem clearCompleted_spec_witness :
    ClearSpec [⟨"a", "a.ts", FileStatus.completed, 100, none⟩,
               ⟨"b", "b.ts", FileStatus.queued, 0, none⟩,
               ⟨"c", "c.ts", FileStatus.completed, 100, none⟩,
               ⟨"d", "d.ts", FileStatus.error, 10, some "boom"⟩] :=
  clearCompleted_spec _

/-- A job currently being converted. -/
def convertingItem : QueueItem := ⟨"job-1", "a.ts", FileStatus.converting, 50, none⟩

/-- Counterexample to claim C9: removeItem has no status check, so
calling it on the id of a running (converting) job removes that job;
the queue is not left unchanged. -/
theorem removeItem_counterexample :
    removeItem [convertingItem] "job-1" = [] ∧
    removeItem [convertingItem] "job-1" ≠ [convertingItem] := by
  constructor
  · rfl
  · intro h
    rw [show removeItem [convertingItem] "job-1" = [] from rfl] at h
    cases h

/-- The remove contract as implemented: removeItem drops exactly the
jobs bearing the given id, whatever their status; the only protection
for a running job is the render guard, which hides the remove button
exactly when the status is converting. -/
def RemoveSpec (queue : List QueueItem) (id : String) : Prop :=
  (∀ j, j ∈ removeItem queue id ↔ (j ∈ queue ∧ j.id ≠ id)) ∧
  List.Sublist (removeItem queue id) queue ∧
  (∀ item : QueueItem,
      removeButtonShown item = false ↔ item.status = FileStatus.converting)

/-- Amended claim C9: the remove operation itself is not rejected for
a running job; it removes the job with the given id regardless of
status.  Running jobs are protected only at the presentation layer,
where the remove button is not rendered while the status is
converting. -/
theorem removeItem_spec (queue : List QueueItem) (id : String) :
    RemoveSpec queue id := by
  unfold RemoveSpec
  refine ⟨?_, List.filter_sublist _, ?_⟩
  · intro j
    rw [removeItem, List.mem_filter]
    simp only [Bool.not_eq_true', decide_eq_false_iff_not]
  · intro item
    rw [removeButtonShown]
    simp only [Bool.not_eq_false', decide_eq_true_eq]

/-- Witness for C9 amended at a concrete queue holding a running job
and a completed job. -/
theorem removeItem_spec_witness :
    RemoveSpec [convertingItem, ⟨"job-2", "b.ts", FileStatus.completed, 100, none⟩]
      "job-2" :=
  removeItem_spec _ "job-2"

/-!  Extension lemmas: extSuffix agrees with the last-dot-suffix
characterization of the regex. -/

theorem extSuffix_eq_some (a b : List Char) (hb : b ≠ []) (hnb : '.' ∉ b) :
    extSuffix (a ++ '.' :: b) = some ('.' :: b) := by
  induction a with
  | nil =>
      rw [List.nil_append]
      show (if ('.' : Char) = '.' ∧ b ≠ [] ∧ '.' ∉ b
            then some ('.' :: b) else extSuffix b) = some ('.' :: b)
      rw [if_pos ⟨rfl, hb, hnb⟩]
  | cons c a ih =>
      rw [List.cons_append]
      show (if c = '.' ∧ (a ++ '.' :: b) ≠ [] ∧ '.' ∉ (a ++ '.' :: b)
            then some (c :: (a ++ '.' :: b)) else extSuffix (a ++ '.' :: b)) =
          some ('.' :: b)
      rw [if_neg fun hcond =>
            hcond.2.2 (List.mem_append_right a (List.mem_cons_self _ _))]
      exact ih

theorem extSuffix_some_decomp (l r : List Char) (h : extSuffix l = some r) :
    ∃ a b, l = a ++ '.' :: b ∧ r = '.' :: b ∧ b ≠ [] ∧ '.' ∉ b := by
  induction l with
  | nil => cases h
  | cons c cs ih =>
      rw [show extSuffix (c :: cs) =
            (if c = '.' ∧ cs ≠ [] ∧ '.' ∉ cs
             then some (c :: cs) else extSuffix cs) from rfl] at h
      by_cases hc : c = '.' ∧ cs ≠ [] ∧ '.' ∉ cs
      · rw [if_pos hc] at h
        obtain ⟨h1, h2, h3⟩ := hc
        subst h1
        cases h
        exact ⟨[], cs, rfl, rfl, h2, h3⟩
      · rw [if_neg hc] at h
        obtain ⟨a, b, hl, hr, hb, hnb⟩ := ih h
        exact ⟨c :: a, b, by rw [hl, List.cons_append], hr, hb, hnb⟩

/-- The deterministic-naming contract: getExtension is the lowercased
final dot-suffix when one exists, ".mp4" when none exists, the input
workspace entry is "input" plus that extension, and the output entry
is "output.mp4" and is the last convertArgs entry for both profiles. -/
def ExtensionSpec (f : String) : Prop :=
  (∀ a b : List Char, f.data = a ++ '.' :: b → b ≠ [] → '.' ∉ b →
      getExtension f = String.mk (('.' :: b).map Char.toLower)) ∧
  ((∀ a b : List Char, f.data = a ++ '.' :: b → b = [] ∨ '.' ∈ b) →
      getExtension f = ".mp4") ∧
  inputNameOf f = "input" ++ getExtension f ∧
  (∀ m : Mode, (convertArgs m (inputNameOf f) outputName).getLast? =
      some outputName) ∧
  outputName = "output.mp4"

/-- Claim C10: for every input filename the workspace names are
deterministic: getExtension is the final dot-suffix lowercased, or
".mp4" when the filename has no dot-suffix; the input entry is named
"input" followed by that extension and the output entry is always
"output.mp4", regardless of the chosen profile. -/
theorem getExtension_spec (f : String) : ExtensionSpec f := by
  unfold ExtensionSpec
  refine ⟨?_, ?_, rfl, ?_, rfl⟩
  · intro a b hl hb hnb
    unfold getExtension
    rw [hl, extSuffix_eq_some a b hb hnb]
  · intro H
    unfold getExtension
    cases hx : extSuffix f.data with
    | none => rfl
    | some r =>
        obtain ⟨a, b, hl, _, hb, hnb⟩ := extSuffix_some_decomp _ _ hx
        rcases H a b hl with h | h
        · exact absurd h hb
        · exact absurd h hnb
  · intro m
    cases m <;> rfl

/-- Witness for C10: a concrete uppercase dot-suffix and a concrete
dotless filename, and the full contract at the former. -/
theorem getExtension_spec_witness :
    getExtension "Movie.TS" = ".ts" ∧ getExtension "archive" = ".mp4" ∧
    getExtension "file." = ".mp4" ∧ inputNameOf "Movie.TS" = "input.ts" ∧
    ExtensionSpec "Movie.TS" :=
  ⟨by decide, by decide, by decide, by decide, getExtension_spec "Movie.TS"⟩

end VideoForge
